import Mathlib

/-!
Verification of the curve-editor widget (Toolkit/DayTimeEditor/CurveWidget.py).

The widget is embedded shallowly: pixel coordinates and normalized curve
coordinates are rationals, the widget's mutable fields become a `WidgetState`
record, and each Qt event handler becomes a state-transition function.
Operations that can raise in Python (division by zero, list indexing out of
range) return `Option`, with `none` marking the fault.

The `Curve` class (`Code.DayTime.Curve`) is imported by the widget but its
source is not part of this repository snapshot; its operations are modelled
from the spec (see the doc comments on the `Curve` namespace definitions).
The change handler is modelled by a counter `change_calls` that each
invocation of the handler increments.
-/

/-- Widget render constant: control-point glyph radius (`self._cv_point_size = 3`). -/
def cv_point_size : ℚ := 3

/-- Widget render constant: left legend inset in pixels (`self._legend_border = 52`). -/
def legend_border : ℚ := 52

/-- Widget render constant: preview-bar height in pixels (`self._bar_h = 30`). -/
def bar_h : ℚ := 30

/-- Modelled from the spec: a curve owns an ordered, mutable sequence of
control points (each an (x, y) pair, conceptually in the unit square) and an
RGB display color.  The class `Code.DayTime.Curve` is referenced by the widget
but its source file is missing from this snapshot. -/
structure Curve where
  cv_points : List (ℚ × ℚ)
  color : ℤ × ℤ × ℤ
  deriving DecidableEq

/-- Modelled from the spec: read-only view of the control points in storage
order. -/
def Curve.get_cv_points (c : Curve) : List (ℚ × ℚ) :=
  c.cv_points

/-- Modelled from the spec: the fixed display color accessor. -/
def Curve.get_color (c : Curve) : ℤ × ℤ × ℤ :=
  c.color

/-- Modelled from the spec: appendPoint adds a new control point at the end of
the sequence and returns its index. -/
def Curve.append_cv (c : Curve) (x y : ℚ) : Curve × ℕ :=
  ({ c with cv_points := c.cv_points ++ [(x, y)] }, c.cv_points.length)

/-- Modelled from the spec: setPointValue overwrites a control point's
coordinates; an out-of-bounds index is rejected (no-op). -/
def Curve.set_cv_value (c : Curve) (i : ℕ) (x y : ℚ) : Curve :=
  { c with cv_points := c.cv_points.set i (x, y) }

/-- Modelled from the spec: removePoint removes a control point by index; an
out-of-bounds index is rejected (no-op). -/
def Curve.remove_cv (c : Curve) (i : ℕ) : Curve :=
  { c with cv_points := c.cv_points.eraseIdx i }

/-- Clamp a rational to the unit interval. -/
def clamp01 (v : ℚ) : ℚ := max 0 (min 1 v)

/-- Stable insertion (by ascending x, ties keep earlier points first) used to
order control points before interpolation. -/
def insertByX (p : ℚ × ℚ) : List (ℚ × ℚ) → List (ℚ × ℚ)
  | [] => [p]
  | q :: rest => if p.1 < q.1 then p :: q :: rest else q :: insertByX p rest

/-- Stable insertion sort of control points by ascending x. -/
def sortByX : List (ℚ × ℚ) → List (ℚ × ℚ)
  | [] => []
  | p :: rest => insertByX p (sortByX rest)

/-- Piecewise-linear interpolation through a list of points already sorted by
ascending x: constant before the first and after the last point, linear in
between, passing through every point exactly. -/
def interpPoints : List (ℚ × ℚ) → ℚ → ℚ
  | [], _ => 0
  | [p], _ => p.2
  | p :: q :: rest, x =>
    if x ≤ p.1 then p.2
    else if x ≤ q.1 then p.2 + (q.2 - p.2) * (x - p.1) / (q.1 - p.1)
    else interpPoints (q :: rest) x

/-- Modelled from the spec: sample(x) clamps the input to [0,1], returns 0 for
an empty curve, the single point's y for a one-point curve, and otherwise a
continuous interpolation through the points ordered by ascending x (the spec
allows piecewise-linear), with the output clamped to [0,1]. -/
def Curve.get_value (c : Curve) (x : ℚ) : ℚ :=
  clamp01 (interpPoints (sortByX c.cv_points) (clamp01 x))

/-- Modelled from the spec: rebuild refreshes the derived sampling cache.  In
this embedding sampling is computed directly from the stored points, so the
rebuild is the identity on the curve. -/
def Curve.build_curve (c : Curve) : Curve :=
  c

/-- State of the CurveWidget: the displayed curves, canvas pixel dimensions,
the dragged point (curve index, point index, pixel grab offset), the selected
point (curve index, point index), and a counter of change-handler
invocations. -/
structure WidgetState where
  curves : List Curve
  width : ℚ
  height : ℚ
  drag_point : Option (ℕ × ℕ × ℚ × ℚ)
  selected_point : Option (ℕ × ℕ)
  change_calls : ℕ
  deriving DecidableEq

/-- Embeds `CurveWidget._get_y_value_for`: maps a normalized value to a canvas
pixel y, clamping to [0,1], inverting the axis and offsetting by the bar
height. -/
def get_y_value_for (height local_value : ℚ) : ℚ :=
  (max 0 (min 1 (1 - local_value))) * (height - legend_border - bar_h) + bar_h

/-- Embeds `CurveWidget._get_x_value_for`: maps a normalized value to a canvas
pixel x, clamping to [0,1]. -/
def get_x_value_for (width local_value : ℚ) : ℚ :=
  (max 0 (min 1 local_value)) * (width - legend_border)

/-- Hit test of `mousePressEvent` for one control point: the pointer (in
legend/bar-adjusted pixel coordinates mx, my) must be within
cv_point_size + 6 pixels of the point's pixel position on both axes. -/
def isHit (width height mx my : ℚ) (p : ℚ × ℚ) : Bool :=
  |get_x_value_for width p.1 - mx| < cv_point_size + 6 ∧
  |get_y_value_for height p.2 - bar_h - my| < cv_point_size + 6

/-- Inner loop of `mousePressEvent` over one curve's control points: every
matching point overwrites the current drag target and selection (the Python
loop has no break), recording the pixel grab offset. -/
def hitTestPoints (width height mx my : ℚ) (ci : ℕ) :
    List (ℚ × ℚ) → ℕ → Option (ℕ × ℕ × ℚ × ℚ) → Option (ℕ × ℕ) →
    Option (ℕ × ℕ × ℚ × ℚ) × Option (ℕ × ℕ)
  | [], _, d, s => (d, s)
  | p :: rest, pi, d, s =>
    if isHit width height mx my p then
      hitTestPoints width height mx my ci rest (pi + 1)
        (some (ci, pi, get_x_value_for width p.1 - mx,
                get_y_value_for height p.2 - bar_h - my))
        (some (ci, pi))
    else
      hitTestPoints width height mx my ci rest (pi + 1) d s

/-- Body of `mousePressEvent` for one curve: first the control-point hit test,
then, if the pointer is inside the region bounds and vertically within 8
pixels of the curve's sampled value at the pointer's column and nothing has
been selected yet this press, a new point is appended on the curve and
becomes selection and drag target with zero offset (firing the change
handler). -/
def pressCurve (w h mx my : ℚ) (ci : ℕ) (c : Curve) (d : Option (ℕ × ℕ × ℚ × ℚ))
    (s : Option (ℕ × ℕ)) (calls : ℕ) :
    Curve × Option (ℕ × ℕ × ℚ × ℚ) × Option (ℕ × ℕ) × ℕ :=
  let r := hitTestPoints w h mx my ci c.cv_points 0 d s
  if 0 < mx ∧ mx < w - legend_border ∧ 0 < my ∧ my < h - legend_border then
    let mpos_relx := mx / (w - legend_border)
    let curve_py := c.get_value mpos_relx
    let curve_offy := get_y_value_for h curve_py - bar_h
    if |curve_offy - my| < 8 ∧ r.2 = none then
      let ap := c.append_cv mpos_relx curve_py
      (ap.1, some (ci, ap.2, 0, 0), some (ci, ap.2), calls + 1)
    else (c, r.1, r.2, calls)
  else (c, r.1, r.2, calls)

/-- The per-curve loop of `mousePressEvent` (enumerate over the displayed
curves, threading drag target, selection and change-handler count). -/
def pressLoop (w h mx my : ℚ) :
    List Curve → ℕ → Option (ℕ × ℕ × ℚ × ℚ) → Option (ℕ × ℕ) → ℕ →
    List Curve × Option (ℕ × ℕ × ℚ × ℚ) × Option (ℕ × ℕ) × ℕ
  | [], _, d, s, calls => ([], d, s, calls)
  | c :: rest, ci, d, s, calls =>
    let pc := pressCurve w h mx my ci c d s calls
    let pl := pressLoop w h mx my rest (ci + 1) pc.2.1 pc.2.2.1 pc.2.2.2
    (pc.1 :: pl.1, pl.2.1, pl.2.2.1, pl.2.2.2)

/-- Embeds `CurveWidget.mousePressEvent`: reset drag target and selection,
translate the pointer by the legend border and bar height, and run the
per-curve loop. -/
def mousePressEvent (st : WidgetState) (px py : ℚ) : WidgetState :=
  let r := pressLoop st.width st.height (px - legend_border) (py - bar_h)
      st.curves 0 none none st.change_calls
  { st with curves := r.1, drag_point := r.2.1, selected_point := r.2.2.1,
            change_calls := r.2.2.2 }

/-- Embeds `CurveWidget.mouseReleaseEvent`: clears only the drag target. -/
def mouseReleaseEvent (st : WidgetState) : WidgetState :=
  { st with drag_point := none }

/-- Normalized x written by `mouseMoveEvent`: pointer minus stored grab offset
minus legend border, divided by the plot width, clamped to [0,1]. -/
def moveLX (st : WidgetState) (px ox : ℚ) : ℚ :=
  max 0 (min 1 ((px - ox - legend_border) / (st.width - legend_border)))

/-- Normalized y written by `mouseMoveEvent`: pointer minus stored grab offset
minus bar height, divided by the plot height, clamped to [0,1] and axis
inverted. -/
def moveLY (st : WidgetState) (py oy : ℚ) : ℚ :=
  1 - max 0 (min 1 ((py - oy - bar_h) / (st.height - legend_border - bar_h)))

/-- Embeds `CurveWidget.mouseMoveEvent`: with no curves or no drag target the
state is unchanged; otherwise the dragged point is overwritten with the
clamped normalized coordinates, the curve rebuilt, and the change handler
fired.  Python raises ZeroDivisionError when a plot dimension is zero and
IndexError when the dragged curve index is stale; both are `none` here. -/
def mouseMoveEvent (st : WidgetState) (px py : ℚ) : Option WidgetState :=
  if st.curves.length < 1 then some st
  else
    match st.drag_point with
    | none => some st
    | some (ci, pi, ox, oy) =>
      if st.width - legend_border = 0 ∨ st.height - legend_border - bar_h = 0 then
        none
      else
        match st.curves[ci]? with
        | none => none
        | some c =>
          let c' := ((c.set_cv_value pi (moveLX st px ox) (moveLY st py oy))).build_curve
          some { st with curves := st.curves.set ci c',
                         change_calls := st.change_calls + 1 }

/-- Embeds `CurveWidget.delete_current_point`: with a selection, remove that
point from its curve, clear selection and drag target and fire the change
handler; with no selection do nothing.  A stale curve index would raise
IndexError in Python (`none` here). -/
def delete_current_point (st : WidgetState) : Option WidgetState :=
  match st.selected_point with
  | none => some st
  | some (ci, pi) =>
    match st.curves[ci]? with
    | none => none
    | some c =>
      some { st with curves := st.curves.set ci (c.remove_cv pi),
                     selected_point := none, drag_point := none,
                     change_calls := st.change_calls + 1 }

/-- Python's int() truncation toward zero, on rationals. -/
def pyInt (q : ℚ) : ℤ :=
  if q < 0 then -((-q).floor) else q.floor

/-- One preview-bar channel in `CurveWidget._draw`: the sampled value times
255, truncated to an integer and clamped to [0, 255]. -/
def barChannel (v : ℚ) : ℤ :=
  max 0 (min 255 (pyInt (v * 255)))

/-- The preview-bar pixel computation of `CurveWidget._draw` at one column
(sampling position relv): with no curves the bar is skipped (`some none`),
with one curve it is grayscale from that curve, otherwise the slice of the
first three curves drives red/green/blue — which indexes element 2 of the
slice and raises IndexError (`none`) when only two curves are displayed. -/
def drawBarPixel (curves : List Curve) (relv : ℚ) : Option (Option (ℤ × ℤ × ℤ)) :=
  match curves with
  | [] => some none
  | [c] =>
    some (some (barChannel (c.get_value relv), barChannel (c.get_value relv),
                barChannel (c.get_value relv)))
  | [_, _] => none
  | c0 :: c1 :: c2 :: _ =>
    some (some (barChannel (c0.get_value relv), barChannel (c1.get_value relv),
                barChannel (c2.get_value relv)))

/-- Total number of control points over a list of curves. -/
def listPoints (cs : List Curve) : ℕ :=
  (cs.map fun c => c.cv_points.length).sum

/-- Total number of control points displayed by the widget. -/
def totalPoints (st : WidgetState) : ℕ :=
  listPoints st.curves

set_option allowUnsafeReducibility true in
attribute [semireducible] Rat.add Rat.sub Rat.mul Rat.inv

set_option maxRecDepth 10000

/-- When no point of the list passes the hit test, the inner press loop
returns its drag/selection accumulators unchanged. -/
theorem hitTestPoints_nohit (w h mx my : ℚ) (ci : ℕ) (pts : List (ℚ × ℚ))
    (hall : ∀ p ∈ pts, isHit w h mx my p = false) :
    ∀ (pi : ℕ) (d : Option (ℕ × ℕ × ℚ × ℚ)) (s : Option (ℕ × ℕ)),
      hitTestPoints w h mx my ci pts pi d s = (d, s) := by
  induction pts with
  | nil => intro pi d s; rfl
  | cons p rest ih =>
    intro pi d s
    have hp := hall p (List.mem_cons_self _ _)
    simp only [hitTestPoints, hp, Bool.false_eq_true, if_false]
    exact ih (fun q hq => hall q (List.mem_cons_of_mem _ hq)) (pi + 1) d s

/-- The inner press loop never clears the selection accumulator. -/
theorem hitTestPoints_isSome (w h mx my : ℚ) (ci : ℕ) (pts : List (ℚ × ℚ)) :
    ∀ (pi : ℕ) (d : Option (ℕ × ℕ × ℚ × ℚ)) (s : Option (ℕ × ℕ)),
      s.isSome = true → ((hitTestPoints w h mx my ci pts pi d s).2).isSome = true := by
  induction pts with
  | nil => intro pi d s hs; exact hs
  | cons p rest ih =>
    intro pi d s hs
    by_cases hp : isHit w h mx my p = true
    · simp only [hitTestPoints, hp, if_true]
      exact ih (pi + 1) _ _ rfl
    · simp only [hitTestPoints, hp, if_false]
      exact ih (pi + 1) d s hs

/-- With a selection already present, the per-curve press body performs no
insertion: the curve, the change-handler count are untouched and the
drag/selection come from the hit test alone. -/
theorem pressCurve_sel_some (w h mx my : ℚ) (ci : ℕ) (c : Curve)
    (d : Option (ℕ × ℕ × ℚ × ℚ)) (s : Option (ℕ × ℕ)) (calls : ℕ)
    (hs : s.isSome = true) :
    pressCurve w h mx my ci c d s calls =
      (c, (hitTestPoints w h mx my ci c.cv_points 0 d s).1,
          (hitTestPoints w h mx my ci c.cv_points 0 d s).2, calls) := by
  have h2 := hitTestPoints_isSome w h mx my ci c.cv_points 0 d s hs
  unfold pressCurve
  split
  · rw [if_neg]
    intro hcon
    rw [hcon.2] at h2
    exact Bool.noConfusion h2
  · rfl

/-- The per-curve press body either leaves the curve and counter alone
(the no-insertion case), or appends exactly the sampled point, selects it and
fires the change handler once. -/
theorem pressCurve_cases (w h mx my : ℚ) (ci : ℕ) (c : Curve)
    (d : Option (ℕ × ℕ × ℚ × ℚ)) (s : Option (ℕ × ℕ)) (calls : ℕ) :
    pressCurve w h mx my ci c d s calls =
      (c, (hitTestPoints w h mx my ci c.cv_points 0 d s).1,
          (hitTestPoints w h mx my ci c.cv_points 0 d s).2, calls) ∨
    pressCurve w h mx my ci c d s calls =
      ({ c with cv_points := c.cv_points ++
          [(mx / (w - legend_border), c.get_value (mx / (w - legend_border)))] },
       some (ci, c.cv_points.length, 0, 0), some (ci, c.cv_points.length), calls + 1) := by
  unfold pressCurve
  split
  · dsimp only
    split
    · exact Or.inr rfl
    · exact Or.inl rfl
  · exact Or.inl rfl

/-- Total control points of a cons cell. -/
theorem listPoints_cons (c : Curve) (cs : List Curve) :
    listPoints (c :: cs) = c.cv_points.length + listPoints cs := by
  simp [listPoints]

/-- With a selection already present, the whole press loop inserts nothing:
the displayed curves and the change-handler count are unchanged, and the
selection stays present. -/
theorem pressLoop_sel_some (w h mx my : ℚ) :
    ∀ (cs : List Curve) (ci : ℕ) (d : Option (ℕ × ℕ × ℚ × ℚ))
      (s : Option (ℕ × ℕ)) (calls : ℕ), s.isSome = true →
      (pressLoop w h mx my cs ci d s calls).1 = cs ∧
      (pressLoop w h mx my cs ci d s calls).2.2.2 = calls ∧
      ((pressLoop w h mx my cs ci d s calls).2.2.1).isSome = true := by
  intro cs
  induction cs with
  | nil => intro ci d s calls hs; exact ⟨rfl, rfl, hs⟩
  | cons c rest ih =>
    intro ci d s calls hs
    have hpc := pressCurve_sel_some w h mx my ci c d s calls hs
    have h2 := hitTestPoints_isSome w h mx my ci c.cv_points 0 d s hs
    simp only [pressLoop, hpc]
    obtain ⟨e1, e2, e3⟩ := ih (ci + 1) _ _ _ h2
    exact ⟨by rw [e1], by rw [e2], e3⟩

/-- Across the press loop the change-handler count grows by exactly the
number of control points inserted, and by at most one. -/
theorem pressLoop_calls_points (w h mx my : ℚ) :
    ∀ (cs : List Curve) (ci : ℕ) (d : Option (ℕ × ℕ × ℚ × ℚ))
      (s : Option (ℕ × ℕ)) (calls : ℕ),
      (pressLoop w h mx my cs ci d s calls).2.2.2 + listPoints cs =
        calls + listPoints (pressLoop w h mx my cs ci d s calls).1 ∧
      (pressLoop w h mx my cs ci d s calls).2.2.2 ≤ calls + 1 := by
  intro cs
  induction cs with
  | nil => intro ci d s calls; simp [pressLoop]
  | cons c rest ih =>
    intro ci d s calls
    rcases pressCurve_cases w h mx my ci c d s calls with hpc | hpc
    · simp only [pressLoop, hpc]
      obtain ⟨e1, e2⟩ := ih (ci + 1)
        (hitTestPoints w h mx my ci c.cv_points 0 d s).1
        (hitTestPoints w h mx my ci c.cv_points 0 d s).2 calls
      rw [listPoints_cons, listPoints_cons]
      exact ⟨by omega, e2⟩
    · simp only [pressLoop, hpc]
      obtain ⟨e1, e2, _⟩ := pressLoop_sel_some w h mx my rest (ci + 1)
        (some (ci, c.cv_points.length, 0, 0)) (some (ci, c.cv_points.length))
        (calls + 1) rfl
      rw [e1, e2, listPoints_cons, listPoints_cons]
      simp only [List.length_append, List.length_cons, List.length_nil]
      exact ⟨by omega, by omega⟩

/-- Auxiliary form of the hit-test characterization: starting from any index
and any accumulators, the point after the prefix is selected when it passes
the hit test and everything after it misses. -/
theorem hitTestPoints_last_hit (w h mx my : ℚ) (ci : ℕ) (p : ℚ × ℚ)
    (pts2 : List (ℚ × ℚ)) (hp : isHit w h mx my p = true)
    (h2 : ∀ q ∈ pts2, isHit w h mx my q = false) :
    ∀ (pts1 : List (ℚ × ℚ)) (pi : ℕ) (d : Option (ℕ × ℕ × ℚ × ℚ))
      (s : Option (ℕ × ℕ)),
      hitTestPoints w h mx my ci (pts1 ++ p :: pts2) pi d s =
        (some (ci, pi + pts1.length, get_x_value_for w p.1 - mx,
               get_y_value_for h p.2 - bar_h - my),
         some (ci, pi + pts1.length)) := by
  intro pts1
  induction pts1 with
  | nil =>
    intro pi d s
    simp only [List.nil_append, hitTestPoints, hp, if_true]
    rw [hitTestPoints_nohit w h mx my ci pts2 h2 (pi + 1) _ _]
    simp
  | cons q pts1' ih =>
    intro pi d s
    have harith : pi + 1 + pts1'.length = pi + (q :: pts1').length := by
      simp [List.length_cons]; omega
    by_cases hq : isHit w h mx my q = true
    · simp only [List.cons_append, hitTestPoints, hq, if_true, List.append_eq]
      rw [ih (pi + 1) _ _, harith]
    · simp only [List.cons_append, hitTestPoints, hq, Bool.false_eq_true, if_false,
        List.append_eq]
      rw [ih (pi + 1) d s, harith]

/-- C1 counterexample: with two control points both inside the press
tolerance (the first at normalized (0.5, 0.5), a later one at (0.51, 0.5),
canvas 452 times 482, press at pixel (252, 230)), the earlier point passes
the hit test, yet the selection and drag target end on the later point
(0, 1), not on the first match (0, 0): the loop does not stop at the first
match. -/
theorem hit_first_match_cex :
    isHit 452 482 200 200 (1/2, 1/2) = true ∧
    isHit 452 482 200 200 (51/100, 1/2) = true ∧
    (mousePressEvent (WidgetState.mk [Curve.mk [(1/2, 1/2), (51/100, 1/2)]
        (255, 0, 0)] 452 482 none none 0) 252 230).selected_point = some (0, 1) ∧
    (mousePressEvent (WidgetState.mk [Curve.mk [(1/2, 1/2), (51/100, 1/2)]
        (255, 0, 0)] 452 482 none none 0) 252 230).drag_point =
      some (0, 1, 4, 0) := by
  exact ⟨by decide, by decide, by decide, by decide⟩

/-- C1 (amended): control-point hit-testing is evaluated per curve in display
order, but every later-tested matching point overwrites the earlier one, so
the last control point whose fixed square tolerance contains the pointer
becomes both the selection and the drag target (with its pixel delta to the
pointer as grab offset), regardless of hits earlier in the scan. -/
theorem hit_last_match_wins (w h mx my : ℚ) (ci : ℕ)
    (pts1 pts2 : List (ℚ × ℚ)) (p : ℚ × ℚ)
    (d : Option (ℕ × ℕ × ℚ × ℚ)) (s : Option (ℕ × ℕ))
    (hp : isHit w h mx my p = true)
    (h2 : ∀ q ∈ pts2, isHit w h mx my q = false) :
    hitTestPoints w h mx my ci (pts1 ++ p :: pts2) 0 d s =
      (some (ci, pts1.length, get_x_value_for w p.1 - mx,
             get_y_value_for h p.2 - bar_h - my),
       some (ci, pts1.length)) := by
  have h := hitTestPoints_last_hit w h mx my ci p pts2 hp h2 pts1 0 d s
  simpa using h

/-- Witness for the amended C1 theorem at a concrete input: the second of two
points wins the hit test. -/
theorem hit_last_match_wins_witness :
    isHit 452 482 200 200 (51/100, 1/2) = true ∧
    (∀ q ∈ ([] : List (ℚ × ℚ)), isHit 452 482 200 200 q = false) ∧
    hitTestPoints 452 482 200 200 0 ([(1/2, 1/2)] ++ (51/100, 1/2) :: []) 0
        none none =
      (some (0, [((1:ℚ)/2, (1:ℚ)/2)].length, get_x_value_for 452 (51/100) - 200,
             get_y_value_for 482 (1/2) - bar_h - 200),
       some (0, [((1:ℚ)/2, (1:ℚ)/2)].length)) := by
  refine ⟨by decide, by decide, ?_⟩
  exact hit_last_match_wins 452 482 200 200 0 [(1/2, 1/2)] [] (51/100, 1/2)
    none none (by decide) (by decide)

/-- Concrete two-curve state used to refute the multi-insertion claim: both
curves are the constant 0.5 curve (single control point at normalized (0, 0.5),
far from the press position), canvas 452 times 482. -/
def twoCurveState : WidgetState :=
  WidgetState.mk [Curve.mk [(0, 1/2)] (255, 0, 0), Curve.mk [(0, 1/2)] (0, 255, 0)]
    452 482 none none 0

/-- C3 counterexample: pressing at pixel (252, 230) puts the pointer exactly on
the body of both displayed curves (the second curve's own body test passes:
its sampled pixel row differs from the pointer row by less than 8), yet only
the first curve receives an inserted point — the point counts go from [1, 1]
to [2, 1], the change handler fires once, and the selection stays on the
first curve's new point.  The second curve gets no independent insertion. -/
theorem second_curve_no_insert_cex :
    |get_y_value_for 482 ((Curve.mk [((0:ℚ), (1:ℚ)/2)] (0, 255, 0)).get_value
        (200 / 400)) - bar_h - 200| < 8 ∧
    (∀ p ∈ (Curve.mk [((0:ℚ), (1:ℚ)/2)] (0, 255, 0)).cv_points,
        isHit 452 482 200 200 p = false) ∧
    (mousePressEvent twoCurveState 252 230).curves.map
        (fun c => c.cv_points.length) = [2, 1] ∧
    (mousePressEvent twoCurveState 252 230).selected_point = some (0, 1) ∧
    (mousePressEvent twoCurveState 252 230).change_calls = 1 := by
  exact ⟨by decide, by decide, by decide, by decide, by decide⟩

/-- C3 (amended): the insertion test requires that nothing has been selected
yet in the same press, so once a point is selected (by hit or by insertion) on
an earlier curve the remaining curves are scanned for hits but never receive
an insertion (their curves and the change count pass through unchanged), and
consequently a single press inserts at most one control point in total. -/
theorem press_inserts_at_most_one (w h mx my : ℚ) (cs : List Curve) (ci : ℕ)
    (d : Option (ℕ × ℕ × ℚ × ℚ)) (sp : Option (ℕ × ℕ)) (calls : ℕ)
    (st : WidgetState) (px py : ℚ) (hsp : sp.isSome = true) :
    (pressLoop w h mx my cs ci d sp calls).1 = cs ∧
    (pressLoop w h mx my cs ci d sp calls).2.2.2 = calls ∧
    totalPoints (mousePressEvent st px py) ≤ totalPoints st + 1 := by
  obtain ⟨h1, h2, _⟩ := pressLoop_sel_some w h mx my cs ci d sp calls hsp
  refine ⟨h1, h2, ?_⟩
  obtain ⟨e1, e2⟩ := pressLoop_calls_points st.width st.height
    (px - legend_border) (py - bar_h) st.curves 0 none none st.change_calls
  simp only [mousePressEvent, totalPoints]
  omega

/-- Witness for the amended C3 theorem: with a selection already present the
loop over one curve inserts nothing, and a concrete two-curve press gains at
most one point. -/
theorem press_inserts_at_most_one_witness :
    (some ((0:ℕ), (0:ℕ))).isSome = true ∧
    (pressLoop 452 482 200 200 [Curve.mk [(0, 1/2)] (255, 0, 0)] 0 none
        (some (0, 0)) 0).1 = [Curve.mk [(0, 1/2)] (255, 0, 0)] ∧
    (pressLoop 452 482 200 200 [Curve.mk [(0, 1/2)] (255, 0, 0)] 0 none
        (some (0, 0)) 0).2.2.2 = 0 ∧
    totalPoints (mousePressEvent twoCurveState 252 230) ≤
      totalPoints twoCurveState + 1 := by
  have h := press_inserts_at_most_one 452 482 200 200
    [Curve.mk [(0, 1/2)] (255, 0, 0)] 0 none (some (0, 0)) 0
    twoCurveState 252 230 rfl
  exact ⟨rfl, h.1, h.2.1, h.2.2⟩

/-- C2: on a press where no control point of the (single displayed) curve
passes the hit test, the pointer lies strictly inside the plotted region, and
the pointer row is vertically within 8 pixels of the curve's sampled value at
the pointer's column, a new control point is appended whose x is the
pointer's normalized x and whose y is the curve's sample at that x, and that
point becomes both the selection and the drag target with zero grab offset,
firing the change handler once. -/
theorem press_on_curve_inserts (st : WidgetState) (c : Curve) (px py : ℚ)
    (hcs : st.curves = [c])
    (hnohit : ∀ p ∈ c.cv_points,
        isHit st.width st.height (px - legend_border) (py - bar_h) p = false)
    (hx0 : 0 < px - legend_border)
    (hx1 : px - legend_border < st.width - legend_border)
    (hy0 : 0 < py - bar_h)
    (hy1 : py - bar_h < st.height - legend_border - bar_h)
    (hnear : |get_y_value_for st.height
        (c.get_value ((px - legend_border) / (st.width - legend_border))) - bar_h
        - (py - bar_h)| < 8) :
    mousePressEvent st px py =
      { st with
        curves := [{ c with cv_points := c.cv_points ++
            [((px - legend_border) / (st.width - legend_border),
              c.get_value ((px - legend_border) / (st.width - legend_border)))] }],
        drag_point := some (0, c.cv_points.length, 0, 0),
        selected_point := some (0, c.cv_points.length),
        change_calls := st.change_calls + 1 } := by
  have hy1' : py - bar_h < st.height - legend_border := by
    have hb : (0:ℚ) < bar_h := by rw [bar_h]; norm_num
    linarith
  have hpc : pressCurve st.width st.height (px - legend_border) (py - bar_h) 0 c
      none none st.change_calls =
      ({ c with cv_points := c.cv_points ++
          [((px - legend_border) / (st.width - legend_border),
            c.get_value ((px - legend_border) / (st.width - legend_border)))] },
       some (0, c.cv_points.length, 0, 0), some (0, c.cv_points.length),
       st.change_calls + 1) := by
    unfold pressCurve
    rw [hitTestPoints_nohit st.width st.height (px - legend_border) (py - bar_h)
      0 c.cv_points hnohit 0 none none]
    rw [if_pos ⟨hx0, hx1, hy0, hy1'⟩]
    dsimp only
    rw [if_pos ⟨hnear, rfl⟩]
    rfl
  unfold mousePressEvent
  rw [hcs]
  simp only [pressLoop, hpc]

/-- Concrete single-curve state for the insertion witness: the constant 0.5
curve with one control point at normalized (0, 0.5), canvas 452 times 482,
change handler already fired 5 times. -/
def onCurvePressState : WidgetState :=
  WidgetState.mk [Curve.mk [(0, 1/2)] (255, 0, 0)] 452 482 none none 5

/-- Witness for C2: pressing at pixel (252, 230) (mid-plot, exactly on the
curve) appends the sampled point (0.5, 0.5), selects it, targets it with zero
offset and fires the change handler. -/
theorem press_on_curve_inserts_witness :
    (∀ p ∈ (Curve.mk [((0:ℚ), (1:ℚ)/2)] (255, 0, 0)).cv_points,
        isHit onCurvePressState.width onCurvePressState.height
          (252 - legend_border) (230 - bar_h) p = false) ∧
    (0:ℚ) < 252 - legend_border ∧
    252 - legend_border < onCurvePressState.width - legend_border ∧
    (0:ℚ) < 230 - bar_h ∧
    230 - bar_h < onCurvePressState.height - legend_border - bar_h ∧
    mousePressEvent onCurvePressState 252 230 =
      { onCurvePressState with
        curves := [{ Curve.mk [((0:ℚ), (1:ℚ)/2)] (255, 0, 0) with
          cv_points := (Curve.mk [((0:ℚ), (1:ℚ)/2)] (255, 0, 0)).cv_points ++
            [((252 - legend_border) / (onCurvePressState.width - legend_border),
              (Curve.mk [((0:ℚ), (1:ℚ)/2)] (255, 0, 0)).get_value
                ((252 - legend_border) / (onCurvePressState.width - legend_border)))] }],
        drag_point := some (0, 1, 0, 0),
        selected_point := some (0, 1),
        change_calls := 6 } := by
  refine ⟨by decide, by decide, by decide, by decide, by decide, ?_⟩
  exact press_on_curve_inserts onCurvePressState
    (Curve.mk [((0:ℚ), (1:ℚ)/2)] (255, 0, 0)) 252 230 rfl (by decide) (by decide)
    (by decide) (by decide) (by decide) (by decide)

/-- Concrete state for the drag-offset fault: one control point at normalized
(0.5, 0.5), whose pixel position in mouse coordinates is (200, 200) on the
452 times 482 canvas. -/
def mirrorBugState : WidgetState :=
  WidgetState.mk [Curve.mk [(1/2, 1/2)] (255, 0, 0)] 452 482 none none 0

/-- C4: the code stores the grab offset (point minus pointer, here -4 on x for
a press at pixel (256, 230)) but then SUBTRACTS it again in the move handler
instead of adding it, so a move event with the pointer still at (256, 230)
relocates the grabbed point from pixel x 200 to pixel x 208 (the mirror image
of the point through the pointer), rather than leaving it at 200 as offset
preservation requires. -/
theorem drag_offset_sign_bug :
    (mousePressEvent mirrorBugState 256 230).drag_point = some (0, 0, -4, 0) ∧
    (mouseMoveEvent (mousePressEvent mirrorBugState 256 230) 256 230).map
        (fun st => st.curves.map (fun c => c.cv_points)) =
      some [[(13/25, 1/2)]] ∧
    get_x_value_for 452 (13/25) = 208 ∧
    get_x_value_for 452 (1/2) = 200 := by
  exact ⟨by decide, by decide, by decide, by decide⟩

/-- C5: during an active drag over a well-formed canvas, the coordinates
written into the dragged control point are exactly the clamped normalized
coordinates: both lie in [0,1], and pushing the pointer beyond a plot bound
saturates that axis at exactly 0 or 1. -/
theorem move_clamps_to_unit (st : WidgetState) (px py : ℚ) (ci pi : ℕ)
    (ox oy : ℚ) (c : Curve)
    (hd : st.drag_point = some (ci, pi, ox, oy))
    (hc : st.curves[ci]? = some c)
    (hpi : pi < c.cv_points.length)
    (hw : 0 < st.width - legend_border)
    (hh : 0 < st.height - legend_border - bar_h) :
    (mouseMoveEvent st px py).bind (fun st' =>
        st'.curves[ci]?.bind (fun c' => c'.cv_points[pi]?)) =
      some (moveLX st px ox, moveLY st py oy) ∧
    0 ≤ moveLX st px ox ∧ moveLX st px ox ≤ 1 ∧
    0 ≤ moveLY st py oy ∧ moveLY st py oy ≤ 1 ∧
    (st.width - legend_border ≤ px - ox - legend_border → moveLX st px ox = 1) ∧
    (px - ox - legend_border ≤ 0 → moveLX st px ox = 0) ∧
    (py - oy - bar_h ≤ 0 → moveLY st py oy = 1) ∧
    (st.height - legend_border - bar_h ≤ py - oy - bar_h → moveLY st py oy = 0) := by
  have hlen : ci < st.curves.length := by
    rw [List.getElem?_eq_some] at hc
    exact hc.1
  have hmove : mouseMoveEvent st px py = some { st with curves := st.curves.set ci ((c.set_cv_value pi (moveLX st px ox) (moveLY st py oy)).build_curve), change_calls := st.change_calls + 1 } := by
    unfold mouseMoveEvent
    rw [hd]
    rw [if_neg (by omega)]
    dsimp only
    rw [if_neg (by push_neg; exact ⟨ne_of_gt hw, ne_of_gt hh⟩)]
    rw [hc]
  rw [hmove]
  have hcget : (st.curves.set ci ((c.set_cv_value pi (moveLX st px ox) (moveLY st py oy)).build_curve))[ci]? = some ((c.set_cv_value pi (moveLX st px ox) (moveLY st py oy)).build_curve) :=
    List.getElem?_set_self hlen
  have hpget : ((c.set_cv_value pi (moveLX st px ox) (moveLY st py oy)).build_curve).cv_points[pi]? = some (moveLX st px ox, moveLY st py oy) := by
    show (c.cv_points.set pi (moveLX st px ox, moveLY st py oy))[pi]? = _
    exact List.getElem?_set_self hpi
  refine ⟨?_, ?_, ?_, ?_, ?_, ?_, ?_, ?_, ?_⟩
  · simp [hcget, hpget]
  · exact le_max_left 0 _
  · exact max_le (by norm_num) (min_le_left _ _)
  · unfold moveLY
    have h1 : max 0 (min 1 ((py - oy - bar_h) / (st.height - legend_border - bar_h))) ≤ 1 :=
      max_le (by norm_num) (min_le_left _ _)
    linarith
  · unfold moveLY
    have h1 : (0:ℚ) ≤ max 0 (min 1 ((py - oy - bar_h) / (st.height - legend_border - bar_h))) :=
      le_max_left 0 _
    linarith
  · intro hge
    unfold moveLX
    have h1 : (1:ℚ) ≤ (px - ox - legend_border) / (st.width - legend_border) :=
      (one_le_div hw).mpr hge
    rw [min_eq_left h1, max_eq_right (by norm_num : (0:ℚ) ≤ 1)]
  · intro hle
    unfold moveLX
    have h1 : (px - ox - legend_border) / (st.width - legend_border) ≤ 0 :=
      div_nonpos_of_nonpos_of_nonneg hle (le_of_lt hw)
    rw [min_eq_right (le_trans h1 (by norm_num)), max_eq_left h1]
  · intro hle
    unfold moveLY
    have h1 : (py - oy - bar_h) / (st.height - legend_border - bar_h) ≤ 0 :=
      div_nonpos_of_nonpos_of_nonneg hle (le_of_lt hh)
    rw [min_eq_right (le_trans h1 (by norm_num)), max_eq_left h1]
    norm_num
  · intro hge
    unfold moveLY
    have h1 : (1:ℚ) ≤ (py - oy - bar_h) / (st.height - legend_border - bar_h) :=
      (one_le_div hh).mpr hge
    rw [min_eq_left h1, max_eq_right (by norm_num : (0:ℚ) ≤ 1)]
    norm_num

/-- Concrete mid-drag state for the clamping witness: point (0.5, 0.5) being
dragged with zero grab offset on the 452 times 482 canvas. -/
def dragClampState : WidgetState :=
  WidgetState.mk [Curve.mk [(1/2, 1/2)] (255, 0, 0)] 452 482
    (some (0, 0, 0, 0)) (some (0, 0)) 0

/-- Witness for C5: dragging far beyond the right and top plot bounds writes
exactly (1, 1) into the dragged point. -/
theorem move_clamps_to_unit_witness :
    dragClampState.drag_point = some (0, 0, 0, 0) ∧
    dragClampState.curves[0]? = some (Curve.mk [((1:ℚ)/2, (1:ℚ)/2)] (255, 0, 0)) ∧
    0 < (Curve.mk [((1:ℚ)/2, (1:ℚ)/2)] (255, 0, 0)).cv_points.length ∧
    (0:ℚ) < dragClampState.width - legend_border ∧
    (0:ℚ) < dragClampState.height - legend_border - bar_h ∧
    (mouseMoveEvent dragClampState 1000 (-100)).bind (fun st' =>
        st'.curves[0]?.bind (fun c' => c'.cv_points[0]?)) = some (1, 1) ∧
    moveLX dragClampState 1000 0 = 1 ∧
    moveLY dragClampState (-100) 0 = 1 := by
  have h := move_clamps_to_unit dragClampState 1000 (-100) 0 0 0 0
    (Curve.mk [((1:ℚ)/2, (1:ℚ)/2)] (255, 0, 0)) rfl rfl (by decide) (by decide)
    (by decide)
  refine ⟨rfl, rfl, by decide, by decide, by decide, ?_, ?_, ?_⟩
  · exact h.1.trans (by decide)
  · exact h.2.2.2.2.2.1 (by decide)
  · exact h.2.2.2.2.2.2.2.1 (by decide)

/-- C6: with a selection present (and the selection indices valid, as the
widget invariant guarantees), the delete operation removes exactly the
selected point from its curve (the curve's point count drops by one), clears
both the selection and the drag target, and fires the change handler exactly
once; with no selection present it returns the state unchanged and does not
fire the handler. -/
theorem delete_selected_point_spec (st st0 : WidgetState) (ci pi : ℕ) (c : Curve)
    (hs : st.selected_point = some (ci, pi))
    (hc : st.curves[ci]? = some c)
    (hpi : pi < c.cv_points.length)
    (h0 : st0.selected_point = none) :
    delete_current_point st =
      some { st with
        curves := st.curves.set ci (c.remove_cv pi),
        selected_point := none,
        drag_point := none,
        change_calls := st.change_calls + 1 } ∧
    (c.remove_cv pi).cv_points.length + 1 = c.cv_points.length ∧
    delete_current_point st0 = some st0 := by
  refine ⟨?_, ?_, ?_⟩
  · unfold delete_current_point
    rw [hs]
    dsimp only
    rw [hc]
  · show (c.cv_points.eraseIdx pi).length + 1 = c.cv_points.length
    rw [List.length_eraseIdx_of_lt hpi]
    omega
  · unfold delete_current_point
    rw [h0]

/-- Witness for C6: deleting the selected point of a two-point curve leaves
one point, empties selection and drag target and fires the handler once; a
state with no selection is left untouched. -/
theorem delete_selected_point_spec_witness :
    dragClampState.selected_point = some (0, 0) ∧
    dragClampState.curves[0]? = some (Curve.mk [((1:ℚ)/2, (1:ℚ)/2)] (255, 0, 0)) ∧
    0 < (Curve.mk [((1:ℚ)/2, (1:ℚ)/2)] (255, 0, 0)).cv_points.length ∧
    onCurvePressState.selected_point = none ∧
    delete_current_point dragClampState =
      some { dragClampState with
        curves := [Curve.mk [] (255, 0, 0)],
        selected_point := none, drag_point := none, change_calls := 1 } ∧
    ((Curve.mk [((1:ℚ)/2, (1:ℚ)/2)] (255, 0, 0)).remove_cv 0).cv_points.length + 1 =
      (Curve.mk [((1:ℚ)/2, (1:ℚ)/2)] (255, 0, 0)).cv_points.length ∧
    delete_current_point onCurvePressState = some onCurvePressState := by
  have h := delete_selected_point_spec dragClampState onCurvePressState 0 0
    (Curve.mk [((1:ℚ)/2, (1:ℚ)/2)] (255, 0, 0)) rfl rfl (by decide) rfl
  exact ⟨rfl, rfl, by decide, rfl, h.1.trans (by decide), h.2.1, h.2.2⟩

/-- C7: the injected change callback fires after every state-mutating
operation and only after those: across a press the number of firings equals
the number of inserted points (so a press that only selects an existing point
fires nothing), a release never mutates the curves and never fires, a move
with an active drag fires exactly once, a move with no drag target and a
delete with no selection leave the state unchanged without firing, and a
delete with a selection fires exactly once. -/
theorem change_handler_policy (st st0 : WidgetState) (px py : ℚ)
    (ci pi : ℕ) (ox oy : ℚ) (c : Curve) (cj pj : ℕ) (cjc : Curve)
    (hd : st.drag_point = some (ci, pi, ox, oy))
    (hc : st.curves[ci]? = some c)
    (hw : st.width - legend_border ≠ 0)
    (hh : st.height - legend_border - bar_h ≠ 0)
    (hs : st.selected_point = some (cj, pj))
    (hcj : st.curves[cj]? = some cjc)
    (h0d : st0.drag_point = none)
    (h0s : st0.selected_point = none) :
    ((mousePressEvent st px py).change_calls + totalPoints st =
      st.change_calls + totalPoints (mousePressEvent st px py)) ∧
    ((mousePressEvent st px py).curves = st.curves →
      (mousePressEvent st px py).change_calls = st.change_calls) ∧
    (mouseReleaseEvent st).change_calls = st.change_calls ∧
    (mouseReleaseEvent st).curves = st.curves ∧
    (mouseMoveEvent st px py).map WidgetState.change_calls =
      some (st.change_calls + 1) ∧
    mouseMoveEvent st0 px py = some st0 ∧
    (delete_current_point st).map WidgetState.change_calls =
      some (st.change_calls + 1) ∧
    delete_current_point st0 = some st0 := by
  have hlen : ci < st.curves.length := by
    rw [List.getElem?_eq_some] at hc
    exact hc.1
  obtain ⟨e1, e2⟩ := pressLoop_calls_points st.width st.height
    (px - legend_border) (py - bar_h) st.curves 0 none none st.change_calls
  refine ⟨?_, ?_, rfl, rfl, ?_, ?_, ?_, ?_⟩
  · simp only [mousePressEvent, totalPoints]
    omega
  · simp only [mousePressEvent, totalPoints]
    intro hcu
    have h3 := congrArg listPoints hcu
    omega
  · have hmove : mouseMoveEvent st px py = some { st with curves := st.curves.set ci ((c.set_cv_value pi (moveLX st px ox) (moveLY st py oy)).build_curve), change_calls := st.change_calls + 1 } := by
      unfold mouseMoveEvent
      rw [hd]
      rw [if_neg (by omega)]
      dsimp only
      rw [if_neg (by push_neg; exact ⟨hw, hh⟩)]
      rw [hc]
    rw [hmove]
    rfl
  · unfold mouseMoveEvent
    rw [h0d]
    split
    · rfl
    · rfl
  · have hdel : delete_current_point st = some { st with curves := st.curves.set cj (cjc.remove_cv pj), selected_point := none, drag_point := none, change_calls := st.change_calls + 1 } := by
      unfold delete_current_point
      rw [hs]
      dsimp only
      rw [hcj]
    rw [hdel]
    rfl
  · unfold delete_current_point
    rw [h0s]

/-- Witness for C7 at concrete states: a press that only selects the existing
point fires nothing, release and no-drag moves and no-selection deletes fire
nothing, and the drag-move and the deletion each fire exactly once. -/
theorem change_handler_policy_witness :
    dragClampState.drag_point = some (0, 0, 0, 0) ∧
    dragClampState.curves[0]? = some (Curve.mk [((1:ℚ)/2, (1:ℚ)/2)] (255, 0, 0)) ∧
    dragClampState.width - legend_border ≠ 0 ∧
    dragClampState.height - legend_border - bar_h ≠ 0 ∧
    dragClampState.selected_point = some (0, 0) ∧
    onCurvePressState.drag_point = none ∧
    onCurvePressState.selected_point = none ∧
    ((mousePressEvent dragClampState 252 230).change_calls +
        totalPoints dragClampState =
      dragClampState.change_calls +
        totalPoints (mousePressEvent dragClampState 252 230)) ∧
    (mousePressEvent dragClampState 252 230).change_calls =
      dragClampState.change_calls ∧
    (mouseReleaseEvent dragClampState).change_calls =
      dragClampState.change_calls ∧
    (mouseReleaseEvent dragClampState).curves = dragClampState.curves ∧
    (mouseMoveEvent dragClampState 252 230).map WidgetState.change_calls =
      some (dragClampState.change_calls + 1) ∧
    mouseMoveEvent onCurvePressState 252 230 = some onCurvePressState ∧
    (delete_current_point dragClampState).map WidgetState.change_calls =
      some (dragClampState.change_calls + 1) ∧
    delete_current_point onCurvePressState = some onCurvePressState := by
  have h := change_handler_policy dragClampState onCurvePressState 252 230
    0 0 0 0 (Curve.mk [((1:ℚ)/2, (1:ℚ)/2)] (255, 0, 0)) 0 0
    (Curve.mk [((1:ℚ)/2, (1:ℚ)/2)] (255, 0, 0)) rfl rfl (by decide) (by decide)
    rfl rfl rfl rfl
  obtain ⟨a1, a2, a3, a4, a5, a6, a7, a8⟩ := h
  exact ⟨rfl, rfl, by decide, by decide, rfl, rfl, rfl,
    a1, a2 (by decide), a3, a4, a5, a6, a7, a8⟩

/-- When the pointer fails the region bounds, the per-curve press body never
inserts: curve and change count pass through. -/
theorem pressCurve_region_false (w h mx my : ℚ) (ci : ℕ) (c : Curve)
    (d : Option (ℕ × ℕ × ℚ × ℚ)) (s : Option (ℕ × ℕ)) (calls : ℕ)
    (hcond : ¬(0 < mx ∧ mx < w - legend_border ∧ 0 < my ∧ my < h - legend_border)) :
    pressCurve w h mx my ci c d s calls =
      (c, (hitTestPoints w h mx my ci c.cv_points 0 d s).1,
          (hitTestPoints w h mx my ci c.cv_points 0 d s).2, calls) := by
  unfold pressCurve
  rw [if_neg hcond]

/-- When the pointer fails the region bounds, the whole press loop leaves the
curves and the change count unchanged (and in particular performs no division
by the plot width). -/
theorem pressLoop_region_false (w h mx my : ℚ)
    (hcond : ¬(0 < mx ∧ mx < w - legend_border ∧ 0 < my ∧ my < h - legend_border)) :
    ∀ (cs : List Curve) (ci : ℕ) (d : Option (ℕ × ℕ × ℚ × ℚ))
      (s : Option (ℕ × ℕ)) (calls : ℕ),
      (pressLoop w h mx my cs ci d s calls).1 = cs ∧
      (pressLoop w h mx my cs ci d s calls).2.2.2 = calls := by
  intro cs
  induction cs with
  | nil => intro ci d s calls; exact ⟨rfl, rfl⟩
  | cons c rest ih =>
    intro ci d s calls
    have hpc := pressCurve_region_false w h mx my ci c d s calls hcond
    simp only [pressLoop, hpc]
    obtain ⟨e1, e2⟩ := ih (ci + 1) _ _ _
    exact ⟨by rw [e1], e2⟩

/-- Degenerate-geometry state: canvas width equal to the legend border (plot
width exactly 0) with a drag in progress. -/
def zeroWidthState : WidgetState :=
  WidgetState.mk [Curve.mk [(1/2, 1/2)] (255, 0, 0)] 52 482
    (some (0, 0, 0, 0)) (some (0, 0)) 0

/-- C8 counterexample: with the plot width exactly zero and an active drag, a
move event does not return a safe default — the unguarded division by the
plot width faults (Python ZeroDivisionError, modelled as `none`). -/
theorem move_zero_width_faults :
    zeroWidthState.width - legend_border = 0 ∧
    zeroWidthState.drag_point ≠ none ∧
    zeroWidthState.curves ≠ [] ∧
    mouseMoveEvent zeroWidthState 100 100 = none := by
  exact ⟨by decide, by decide, by decide, by decide⟩

/-- C8 (amended): press events really are safe under zero or negative plot
width — the in-region guard fails, so the pixel-to-normalized division is
never reached and no point is inserted (curves and change count unchanged) —
but move events during an active drag divide by the plot dimensions
unguarded, so a zero plot width faults instead of returning a safe
default. -/
theorem degenerate_geometry_press_safe (st : WidgetState) (px py : ℚ)
    (hw : st.width - legend_border ≤ 0) :
    (mousePressEvent st px py).curves = st.curves ∧
    (mousePressEvent st px py).change_calls = st.change_calls ∧
    (st.width - legend_border = 0 → st.drag_point ≠ none → st.curves ≠ [] →
      mouseMoveEvent st px py = none) := by
  have hcond : ¬(0 < px - legend_border ∧
      px - legend_border < st.width - legend_border ∧
      0 < py - bar_h ∧ py - bar_h < st.height - legend_border) := by
    rintro ⟨h1, h2, -, -⟩
    linarith
  obtain ⟨e1, e2⟩ := pressLoop_region_false st.width st.height
    (px - legend_border) (py - bar_h) hcond st.curves 0 none none st.change_calls
  refine ⟨e1, e2, ?_⟩
  intro hw0 hdne hcne
  have hlen : ¬(st.curves.length < 1) := by
    have : st.curves.length ≠ 0 := fun hz => hcne (List.length_eq_zero.mp hz)
    omega
  unfold mouseMoveEvent
  rw [if_neg hlen]
  obtain ⟨⟨dci, dpi, dox, doy⟩, hdp⟩ := Option.ne_none_iff_exists'.mp hdne
  rw [hdp]
  dsimp only
  rw [if_pos (Or.inl hw0)]

/-- Witness for the amended C8 theorem at the zero-plot-width state. -/
theorem degenerate_geometry_press_safe_witness :
    zeroWidthState.width - legend_border ≤ 0 ∧
    (mousePressEvent zeroWidthState 100 100).curves = zeroWidthState.curves ∧
    (mousePressEvent zeroWidthState 100 100).change_calls =
      zeroWidthState.change_calls ∧
    mouseMoveEvent zeroWidthState 100 100 = none := by
  have h := degenerate_geometry_press_safe zeroWidthState 100 100 (by decide)
  exact ⟨by decide, h.1, h.2.1, h.2.2 (by decide) (by decide) (by decide)⟩

/-- C9: with three or more curves displayed, the preview-bar pixel at any
column is driven by the first three curves as red, green and blue channels,
each channel independently the curve's sample at that column times 255,
truncated to an integer and clamped into [0, 255]. -/
theorem bar_rgb_channels (c0 c1 c2 : Curve) (rest : List Curve) (relv : ℚ) :
    drawBarPixel (c0 :: c1 :: c2 :: rest) relv =
      some (some (barChannel (c0.get_value relv), barChannel (c1.get_value relv),
                  barChannel (c2.get_value relv))) ∧
    0 ≤ barChannel (c0.get_value relv) ∧ barChannel (c0.get_value relv) ≤ 255 ∧
    0 ≤ barChannel (c1.get_value relv) ∧ barChannel (c1.get_value relv) ≤ 255 ∧
    0 ≤ barChannel (c2.get_value relv) ∧ barChannel (c2.get_value relv) ≤ 255 := by
  refine ⟨rfl, ?_, ?_, ?_, ?_, ?_, ?_⟩ <;>
    first
      | exact le_max_left 0 _
      | exact max_le (by norm_num) (min_le_left _ _)

/-- Witness for C9: three curves sampling 1.0, 0.0, 0.0 render the composite
preview pixel as pure red (255, 0, 0). -/
theorem bar_rgb_channels_witness :
    drawBarPixel [Curve.mk [(0, 1)] (255, 0, 0), Curve.mk [(0, 0)] (0, 255, 0),
        Curve.mk [(0, 0)] (0, 0, 255)] (1/2) = some (some (255, 0, 0)) := by
  rw [(bar_rgb_channels (Curve.mk [(0, 1)] (255, 0, 0))
    (Curve.mk [(0, 0)] (0, 255, 0)) (Curve.mk [(0, 0)] (0, 0, 255)) [] (1/2)).1]
  decide

/-- C10: the preview-bar pixel computation faults (IndexError on element 2 of
the three-curve slice) exactly when two curves are displayed; for zero, one,
or three-or-more curves it is well-defined. -/
theorem bar_two_curves_faults (curves : List Curve) (relv : ℚ) :
    drawBarPixel curves relv = none ↔ curves.length = 2 := by
  rcases curves with - | ⟨c0, - | ⟨c1, - | ⟨c2, rest⟩⟩⟩
  · simp [drawBarPixel]
  · simp [drawBarPixel]
  · simp [drawBarPixel]
  · simp only [drawBarPixel, List.length_cons]
    constructor
    · intro hcon
      exact absurd hcon (by simp)
    · intro hlen
      omega

/-- Witness for C10: drawing with exactly two curves faults. -/
theorem bar_two_curves_faults_witness :
    drawBarPixel [Curve.mk [(0, 1)] (255, 0, 0), Curve.mk [(0, 0)] (0, 255, 0)]
      (1/2) = none :=
  (bar_two_curves_faults [Curve.mk [(0, 1)] (255, 0, 0),
    Curve.mk [(0, 0)] (0, 255, 0)] (1/2)).mpr rfl
